import Mathlib

/-!
Verification of the ai-counsel deliberation orchestrator.

Shallow embedding of the core data model and operations:
`deliberation/engine.py` (round execution, vote aggregation, early stopping),
`deliberation/convergence.py` (Jaccard similarity backend),
`decision_graph/retrieval.py` (tiered, budget-aware context formatting) and
`server.py` (RPC response truncation).

Machine reals (Python floats) are modelled as exact rationals; external
side effects (adapter subprocess calls, timestamps, the vote regex/JSON
parser, the SQLite store) are modelled as explicit oracle functions that
the theorems quantify over, so every theorem holds for each concrete
behaviour of those collaborators.
-/

/-- Word splitter modelling Python `str.split()` with no separator:
splits on runs of whitespace and discards empty pieces.
`acc` holds the (reversed) characters of the word currently being read. -/
def splitWsAux : List Char → List Char → List (List Char)
  | [], acc => if acc.isEmpty then [] else [acc.reverse]
  | c :: cs, acc =>
    if c.isWhitespace then
      if acc.isEmpty then splitWsAux cs [] else acc.reverse :: splitWsAux cs []
    else
      splitWsAux cs (c :: acc)

/-- The whitespace-delimited words of a string, as in Python `s.split()`. -/
def pyWords (s : String) : List String :=
  (splitWsAux s.data []).map (fun cs => String.mk cs)

/-- Python `str.lower()`, modelled as per-character lowercasing. -/
def pyLower (s : String) : String := String.mk (s.data.map Char.toLower)

/-- From `deliberation/convergence.py`, `JaccardBackend.compute_similarity`:
lowercase both texts, split into word sets, return `|A ∩ B| / |A ∪ B|`.
Empty strings (Python truthiness `not text`) and empty word sets yield `0.0`. -/
def computeSimilarity (text1 text2 : String) : ℚ :=
  if text1 = "" ∨ text2 = "" then 0
  else
    let words1 := (pyWords (pyLower text1)).toFinset
    let words2 := (pyWords (pyLower text2)).toFinset
    if words1 = ∅ ∨ words2 = ∅ then 0
    else
      let inter := words1 ∩ words2
      let union := words1 ∪ words2
      if union = ∅ then 0
      else (inter.card : ℚ) / (union.card : ℚ)

/-! ## Data model (`models/schema.py` and collaborators) -/
/-- Deliberation mode, from `models/schema.py` `DeliberateRequest.mode`. -/
inductive DelibMode
  | quick
  | conference
deriving DecidableEq, Repr

/-- From `models/schema.py` `Participant`: backend id (`cli`), model id and stance. -/
structure Participant where
  cli : String
  model : String
  stance : String
deriving DecidableEq, Repr

/-- From `models/schema.py` `DeliberateRequest`. -/
structure DeliberateRequest where
  question : String
  participants : List Participant
  rounds : Nat
  mode : DelibMode
  context : Option String
deriving DecidableEq, Repr

/-- The pydantic field constraints of `DeliberateRequest` in `models/schema.py`:
`question` min length 10, at least 2 participants, `rounds` in `[1, 5]`. -/
def ValidatedRequest (req : DeliberateRequest) : Prop :=
  10 ≤ req.question.length ∧ 2 ≤ req.participants.length ∧
    1 ≤ req.rounds ∧ req.rounds ≤ 5

instance (req : DeliberateRequest) : Decidable (ValidatedRequest req) := by
  unfold ValidatedRequest
  infer_instance

/-- From `models/schema.py` `RoundResponse`. -/
structure RoundResponse where
  round : Nat
  participant : String
  stance : String
  response : String
  timestamp : String
deriving DecidableEq, Repr

/-- Modelled from the spec: the `Vote` model (`option`, `confidence ∈ [0,1]`,
`rationale`, `continue_debate` defaulting to true) is imported by
`deliberation/engine.py` from `models.schema` but the generation of
`models/schema.py` under `src/` does not declare it. Confidence is a rational
standing for the Python float. -/
structure Vote where
  option : String
  confidence : ℚ
  rationale : String
  continue_debate : Bool
deriving DecidableEq, Repr

/-- Modelled from the spec: the `RoundVote` record built by
`DeliberationEngine._aggregate_votes` (round, participant, vote, timestamp);
declared in the missing generation of `models/schema.py`. -/
structure RoundVote where
  round : Nat
  participant : String
  vote : Vote
  timestamp : String
deriving DecidableEq, Repr

/-- Modelled from the spec: `VotingResult` (tally map option → count in Python
dict insertion order, per-round votes, consensus flag, nullable winner);
declared in the missing generation of `models/schema.py`. -/
structure VotingResult where
  final_tally : List (String × Nat)
  votes_by_round : List RoundVote
  consensus_reached : Bool
  winning_option : Option String
deriving DecidableEq, Repr

/-- From `models/schema.py` `Summary`. -/
structure Summary where
  consensus : String
  key_agreements : List String
  key_disagreements : List String
  final_recommendation : String
deriving DecidableEq, Repr

/-- Modelled from the spec: the per-round result object returned by
`ConvergenceDetector.check_convergence` (status string, converged flag,
min/avg similarity, per-participant similarity map); the `ConvergenceDetector`
class is absent from `src/deliberation/convergence.py`, which only holds the
similarity backends. -/
structure ConvergenceResult where
  status : String
  converged : Bool
  min_similarity : ℚ
  avg_similarity : ℚ
  per_participant_similarity : List (String × ℚ)
deriving DecidableEq, Repr

/-- Modelled from the spec: `ConvergenceInfo` as populated by
`DeliberationEngine.execute` (detected, nullable detection round, final
similarity, status, per-participant similarity); declared in the missing
generation of `models/schema.py`. -/
structure ConvergenceInfo where
  detected : Bool
  detection_round : Option Nat
  final_similarity : ℚ
  status : String
  scores_by_round : List ℚ
  per_participant_similarity : List (String × ℚ)
deriving DecidableEq, Repr

/-- From `models/schema.py` `DeliberationResult` together with the optional
fields (`convergence_info`, `voting_result`) the engine populates. -/
structure DeliberationResult where
  status : String
  mode : String
  rounds_completed : Nat
  participants : List String
  summary : Summary
  transcript_path : String
  full_debate : List RoundResponse
  convergence_info : Option ConvergenceInfo
  voting_result : Option VotingResult
deriving DecidableEq, Repr

/-- An adapter failure: Python exception type name and message, as interpolated
by `execute_round` into the synthetic `[ERROR: kind: msg]` entry. -/
structure AdapterError where
  kind : String
  msg : String
deriving DecidableEq, Repr

/-- From `models/config.py` `EarlyStoppingConfig`; `threshold` is a rational
standing for the Python float. -/
structure EarlyStoppingConfig where
  enabled : Bool
  threshold : ℚ
  respect_min_rounds : Bool
deriving DecidableEq, Repr

/-- The engine's effectful collaborators, modelled as deterministic oracles:
`invoke cli prompt model context` is `adapters[cli].invoke(prompt, model,
context)` (`.error` models a raised exception); `ts round idx` is the
`datetime.now().isoformat()` timestamp of participant `idx` in round `round`;
`parseVote` models `_parse_vote` (a regex plus `json.loads` plus pydantic
validation over external libraries); `earlyStopping` is the early-stopping
configuration (`none` when absent or no config); `convergence` is the optional
`ConvergenceDetector.check_convergence` (current round, previous round, round
number); `mkSummary` models the summarizer fallback chain
(`deliberation/summarizer.py` is absent from `src/`); `transcriptPathOf`
models `TranscriptManager.save` returning the transcript path. -/
structure Env where
  invoke : String → String → String → Option String → Except AdapterError String
  ts : Nat → Nat → String
  parseVote : String → Option Vote
  earlyStopping : Option EarlyStoppingConfig
  convergence : Option (List RoundResponse → List RoundResponse → Nat → Option ConvergenceResult)
  mkSummary : String → List RoundResponse → Summary
  transcriptPathOf : String → String

/-! ## Engine operations (`deliberation/engine.py`) -/
/-- The voting-instructions block from `_build_voting_instructions`. -/
def votingInstructions : String :=
  "## Voting Instructions\n\nAfter your analysis, please cast your vote using the following format:\n\nVOTE: \x7b\"option\": \"Your choice\", \"confidence\": 0.85, \"rationale\": \"Brief explanation\"\x7d\n\nWhere:\n- option: Your chosen option (e.g., \"Option A\", \"Yes\", \"Approve\")\n- confidence: Your confidence level from 0.0 (no confidence) to 1.0 (absolute certainty)\n- rationale: Brief explanation for your vote\n\nExample:\nVOTE: \x7b\"option\": \"Option A\", \"confidence\": 0.9, \"rationale\": \"Lower risk and better architectural fit\"\x7d"

/-- `_enhance_prompt_with_voting`. -/
def enhancePromptWithVoting (prompt : String) : String :=
  prompt ++ "\n\n" ++ votingInstructions

/-- `_build_context`: the accumulated-responses context string. -/
def buildContext (previous : List RoundResponse) : String :=
  String.intercalate "\n" ("Previous discussion:\n" ::
    previous.map (fun resp =>
      "Round " ++ toString resp.round ++ " - " ++ resp.participant ++
        " (" ++ resp.stance ++ "): " ++ resp.response ++ "\n"))

/-- The context argument `execute_round` passes to every adapter of a round:
`_build_context(previous_responses) if previous_responses else None`. -/
def roundContext (previous : List RoundResponse) : Option String :=
  if previous.isEmpty then none else some (buildContext previous)

/-- One participant's `RoundResponse` in `execute_round`: invoke the adapter
with the voting-enhanced prompt and the accumulated context; a raised
exception becomes the synthetic `[ERROR: kind: msg]` response text. -/
def mkRoundResponse (env : Env) (round_num : Nat) (prompt : String)
    (previous : List RoundResponse) (idx : Nat) (p : Participant) : RoundResponse :=
  let response_text :=
    match env.invoke p.cli (enhancePromptWithVoting prompt) p.model (roundContext previous) with
    | .ok t => t
    | .error e => "[ERROR: " ++ e.kind ++ ": " ++ e.msg ++ "]"
  { round := round_num
    participant := p.model ++ "@" ++ p.cli
    stance := p.stance
    response := response_text
    timestamp := env.ts round_num idx }

/-- `execute_round`: one response per participant, in request order. -/
def executeRound (env : Env) (round_num : Nat) (prompt : String)
    (participants : List Participant) (previous : List RoundResponse) : List RoundResponse :=
  participants.enum.map (fun pr => mkRoundResponse env round_num prompt previous pr.1 pr.2)

/-- One step of `_aggregate_votes`' tally update
`tally[option] = tally.get(option, 0) + 1` on an insertion-ordered map. -/
def tallyAdd (t : List (String × Nat)) (opt : String) : List (String × Nat) :=
  if t.any (fun p => p.1 = opt) then
    t.map (fun p => if p.1 = opt then (p.1, p.2 + 1) else p)
  else
    t ++ [(opt, 1)]

/-- The `votes_by_round` list of `_aggregate_votes`: one `RoundVote` per
response whose text parses as a vote, in response order. -/
def voteRecords (env : Env) (responses : List RoundResponse) : List RoundVote :=
  responses.filterMap (fun r =>
    (env.parseVote r.response).map (fun v =>
      { round := r.round, participant := r.participant, vote := v, timestamp := r.timestamp }))

/-- The final tally of `_aggregate_votes` over the parsed votes. -/
def tallyOf (votes : List RoundVote) : List (String × Nat) :=
  votes.foldl (fun t rv => tallyAdd t rv.vote.option) []

/-- The consensus branch of `_aggregate_votes`: a single tallied option is
unanimous; otherwise the options attaining `max(tally.values())` win when
unique, and a tie yields no winner. `foldl Nat.max 0` equals Python
`max(...)` on the nonempty count lists arising here. -/
def consensusOf : List (String × Nat) → Bool × Option String
  | [] => (false, none)
  | [x] => (true, some x.1)
  | x :: y :: t =>
    let tally := x :: y :: t
    let maxVotes := (tally.map (fun p => p.2)).foldl Nat.max 0
    let winners := (tally.filter (fun p => p.2 = maxVotes)).map (fun p => p.1)
    match winners with
    | [w] => (true, some w)
    | _ => (false, none)

/-- `_aggregate_votes`: `None` when no vote parsed, else the `VotingResult`. -/
def aggregateVotes (env : Env) (responses : List RoundResponse) : Option VotingResult :=
  let vbr := voteRecords env responses
  let tally := tallyOf vbr
  if vbr.isEmpty then none
  else
    let cw := consensusOf tally
    some { final_tally := tally, votes_by_round := vbr,
           consensus_reached := cw.1, winning_option := cw.2 }

/-- `_check_early_stopping`: disabled or below the minimum round ⇒ `false`;
otherwise stop when the fraction of this round's parsed votes with
`continue_debate = false` reaches the threshold. The Python float division
`want_to_stop / total_votes` is modelled as the exact rational
`mkRat want_to_stop total_votes` (the vote list is nonempty here). -/
def checkEarlyStopping (env : Env) (round_responses : List RoundResponse)
    (round_num min_rounds : Nat) : Bool :=
  match env.earlyStopping with
  | none => false
  | some cfg =>
    if !cfg.enabled then false
    else if cfg.respect_min_rounds && decide (round_num < min_rounds) then false
    else
      let votes := round_responses.filterMap (fun r => env.parseVote r.response)
      if votes.isEmpty then false
      else
        let want_to_stop := (votes.filter (fun v => !v.continue_debate)).length
        decide (cfg.threshold ≤ mkRat want_to_stop votes.length)

/-- Outcome of the per-round convergence check in `execute` (lines 402-430). -/
inductive StepDecision
  | breakConverged (c : ConvergenceResult)
  | breakImpasse (c : ConvergenceResult)
  | continueWith (f : Option ConvergenceResult)

/-- The convergence-detector consultation of `execute`: only from round 2 and
when a detector is configured; a `converged` result or an `"impasse"` status
breaks the loop, any other result replaces the stored convergence info. -/
def convergenceCheck (env : Env) (all_responses round_responses : List RoundResponse)
    (round_num : Nat) (finfo : Option ConvergenceResult) : StepDecision :=
  match env.convergence with
  | none => .continueWith finfo
  | some detect =>
    if 2 ≤ round_num then
      match detect round_responses
          (all_responses.filter (fun r => r.round = round_num - 1)) round_num with
      | none => .continueWith finfo
      | some cres =>
        if cres.converged then .breakConverged cres
        else if cres.status = "impasse" then .breakImpasse cres
        else .continueWith (some cres)
    else .continueWith finfo

/-- Post-loop state of `execute`: accumulated responses, last executed round,
the `converged` / `model_controlled_stop` flags and the stored
`final_convergence_info`. -/
structure LoopOut where
  responses : List RoundResponse
  last : Nat
  converged : Bool
  modelStop : Bool
  finfo : Option ConvergenceResult

/-- The round loop of `execute`, executing rounds `round_num`,
`round_num + 1`, …, for `remaining` further rounds after the current one
(the `for round_num in range(1, rounds_to_execute + 1)` loop, unrolled on the
number of rounds still to run). Note the source passes `request.rounds` as
the early-stopping minimum. -/
def roundsLoop (env : Env) (req : DeliberateRequest) :
    Nat → Nat → List RoundResponse → Option ConvergenceResult → LoopOut
  | 0, round_num, acc, finfo =>
    let rr := executeRound env round_num req.question req.participants acc
    let acc2 := acc ++ rr
    if checkEarlyStopping env rr round_num req.rounds then
      ⟨acc2, round_num, false, true, finfo⟩
    else
      match convergenceCheck env acc2 rr round_num finfo with
      | .breakConverged cres => ⟨acc2, round_num, true, false, some cres⟩
      | .breakImpasse cres => ⟨acc2, round_num, false, false, some cres⟩
      | .continueWith finfo2 => ⟨acc2, round_num, false, false, finfo2⟩
  | remaining + 1, round_num, acc, finfo =>
    let rr := executeRound env round_num req.question req.participants acc
    let acc2 := acc ++ rr
    if checkEarlyStopping env rr round_num req.rounds then
      ⟨acc2, round_num, false, true, finfo⟩
    else
      match convergenceCheck env acc2 rr round_num finfo with
      | .breakConverged cres => ⟨acc2, round_num, true, false, some cres⟩
      | .breakImpasse cres => ⟨acc2, round_num, false, false, some cres⟩
      | .continueWith finfo2 => roundsLoop env req remaining (round_num + 1) acc2 finfo2

/-- Python truthiness of `final_convergence_info and
final_convergence_info.status == "impasse"` in `execute`. -/
def isImpasse : Option ConvergenceResult → Bool
  | some f => f.status == "impasse"
  | none => false

/-- Python truthiness of `voting_result.winning_option` (None and "" falsy). -/
def winningTruthy (vr : VotingResult) : Bool :=
  match vr.winning_option with
  | some w => !w.isEmpty
  | none => false

/-- `mode` as serialized in the result. -/
def modeString : DelibMode → String
  | .quick => "quick"
  | .conference => "conference"

/-- The `convergence_info` construction of `execute` (lines 493-530): voting
outcome overrides the detector status (unanimous / majority / tie), else the
detector's last status, else `"unknown"`; `None` when neither exists. -/
def buildConvergenceInfo (voting : Option VotingResult)
    (finfo : Option ConvergenceResult) (rounds_completed : Nat) : Option ConvergenceInfo :=
  if finfo = none ∧ voting = none then none
  else
    let sd : String × Bool :=
      match voting with
      | some vr =>
        if vr.consensus_reached ∧ vr.final_tally.length = 1 then
          ("unanimous_consensus", true)
        else if vr.consensus_reached ∧ winningTruthy vr then
          ("majority_decision", true)
        else if !winningTruthy vr then
          ("tie", false)
        else
          (match finfo with | some f => f.status | none => "unknown",
           match finfo with | some f => f.converged | none => false)
      | none =>
        match finfo with
        | some f => (f.status, f.converged)
        | none => ("unknown", false)
    some { detected := sd.2
           detection_round := if sd.2 then some rounds_completed else none
           final_similarity := match finfo with | some f => f.min_similarity | none => 0
           status := sd.1
           scores_by_round := []
           per_participant_similarity :=
             match finfo with | some f => f.per_participant_similarity | none => [] }

/-- `DeliberationEngine.execute`: quick mode forces a single round; run the
round loop; `rounds_completed` is the breaking round on an early stop, else
the planned round count; aggregate votes; build the result with status
`"complete"`. -/
def execute (env : Env) (req : DeliberateRequest) : DeliberationResult :=
  let rounds_to_execute := match req.mode with | .quick => 1 | .conference => req.rounds
  let out := roundsLoop env req (rounds_to_execute - 1) 1 [] none
  let is_early_stop := out.converged || out.modelStop || isImpasse out.finfo
  let actual_rounds_completed := if is_early_stop then out.last else rounds_to_execute
  let voting_result := aggregateVotes env out.responses
  { status := "complete"
    mode := modeString req.mode
    rounds_completed := actual_rounds_completed
    participants := req.participants.map (fun p => p.model ++ "@" ++ p.cli)
    summary := env.mkSummary req.question out.responses
    transcript_path := env.transcriptPathOf req.question
    full_debate := out.responses
    convergence_info := buildConvergenceInfo voting_result out.finfo actual_rounds_completed
    voting_result := voting_result }

/-- The debate transcript after rounds `1..n`, round by round; round `n + 1`
sees exactly the accumulated responses of rounds `1..n` as context. -/
def debateUpTo (env : Env) (req : DeliberateRequest) : Nat → List RoundResponse
  | 0 => []
  | n + 1 =>
    debateUpTo env req n ++
      executeRound env (n + 1) req.question req.participants (debateUpTo env req n)

/-- The adapter invocations of round `r`: for each participant in request
order, the `(cli, prompt, model, context)` arguments that `execute_round`
passes to `adapter.invoke`. -/
def invocationArgs (env : Env) (req : DeliberateRequest) (r : Nat) :
    List (String × String × String × Option String) :=
  req.participants.map (fun p =>
    (p.cli, enhancePromptWithVoting req.question, p.model,
      roundContext (debateUpTo env req (r - 1))))

/-- All adapter invocations a deliberation performs, round by round. -/
def invocationTrace (env : Env) (req : DeliberateRequest) :
    List (String × String × String × Option String) :=
  ((List.range (execute env req).rounds_completed).map
    (fun k => invocationArgs env req (k + 1))).flatten

/-- Shared concrete scenario for witnesses: two participants, benign
adapters, quick mode. -/
def envW : Env where
  invoke := fun _ _ _ _ => .ok "fine"
  ts := fun _ _ => "2024-01-01T00:00:00"
  parseVote := fun _ => none
  earlyStopping := none
  convergence := none
  mkSummary := fun _ _ => ⟨"", [], [], ""⟩
  transcriptPathOf := fun _ => "transcripts/t.md"

def reqW : DeliberateRequest where
  question := "Should we adopt TypeScript?"
  participants := [⟨"claude", "sonnet", "neutral"⟩, ⟨"codex", "gpt-5-codex", "for"⟩]
  rounds := 3
  mode := DelibMode.quick
  context := none

/-- Witness scenario for adapter failure: the `codex` backend raises in every
round, the `claude` backend answers normally. -/
def envFail : Env where
  invoke := fun cli _ _ _ =>
    if cli = "codex" then .error ⟨"RuntimeError", "boom"⟩ else .ok "fine"
  ts := fun _ _ => "2024-01-01T00:00:00"
  parseVote := fun _ => none
  earlyStopping := none
  convergence := none
  mkSummary := fun _ _ => ⟨"", [], [], ""⟩
  transcriptPathOf := fun _ => "transcripts/t.md"

/-! ## Vote aggregation (`_aggregate_votes`) -/
/-- Option `w` with count `c` strictly beats every other tallied option. -/
def UniqueStrictMax (t : List (String × Nat)) (w : String) (c : Nat) : Prop :=
  (w, c) ∈ t ∧ ∀ p ∈ t, p.1 ≠ w → p.2 < c

/-- Two distinct options tie for the maximum count of the tally. -/
def TiedAtMax (t : List (String × Nat)) : Prop :=
  ∃ p q, p ∈ t ∧ q ∈ t ∧ p.1 ≠ q.1 ∧ p.2 = q.2 ∧ ∀ x ∈ t, x.2 ≤ p.2

/-- Witness scenario for vote aggregation: three responses carrying votes
A, A, B. -/
def envVotes : Env where
  invoke := fun _ _ _ _ => .ok "fine"
  ts := fun _ _ => "2024-01-01T00:00:00"
  parseVote := fun s =>
    if s = "va" then some ⟨"A", 9/10, "r", true⟩
    else if s = "vb" then some ⟨"B", 8/10, "r", true⟩
    else none
  earlyStopping := none
  convergence := none
  mkSummary := fun _ _ => ⟨"", [], [], ""⟩
  transcriptPathOf := fun _ => "t.md"

def respsVotes : List RoundResponse :=
  [⟨1, "m1@claude", "neutral", "va", "t"⟩,
   ⟨1, "m2@codex", "neutral", "va", "t"⟩,
   ⟨1, "m3@gemini", "neutral", "vb", "t"⟩]

/-- C4 scenario: early stopping enabled (threshold 0.66, respect_min_rounds),
5 requested rounds, two participants; round 1 votes continue, every later
round votes `continue_debate = false`. The adapters answer `"r1"` when no
context is passed (round 1) and `"stop"` otherwise. -/
def envC4 : Env where
  invoke := fun _ _ _ ctx => .ok (match ctx with | none => "r1" | some _ => "stop")
  ts := fun _ _ => "2024-01-01T00:00:00"
  parseVote := fun s =>
    if s = "r1" then some ⟨"Yes", 8/10, "initial", true⟩
    else if s = "stop" then some ⟨"Yes", 9/10, "final", false⟩
    else none
  earlyStopping := some ⟨true, mkRat 33 50, true⟩
  convergence := none
  mkSummary := fun _ _ => ⟨"", [], [], ""⟩
  transcriptPathOf := fun _ => "t.md"

def reqC4 : DeliberateRequest where
  question := "Should we stop?"
  participants := [⟨"claude", "claude-3-5-sonnet", "neutral"⟩, ⟨"codex", "gpt-4", "neutral"⟩]
  rounds := 5
  mode := DelibMode.conference
  context := none

/-! ## RPC response truncation (`server.py`, `call_tool`) -/
/-- From `server.py` lines 304-321: when `len(result.full_debate)` exceeds
`max_rounds` (config `mcp.max_rounds_in_response`, default 3), the RPC
response keeps only the slice `full_debate[-max_rounds:]`, sets
`full_debate_truncated = True` and `total_rounds = len(result.full_debate)`;
otherwise the debate is kept whole with `full_debate_truncated = False` (and
no `total_rounds` key, modelled as `none`). Note Python `xs[-0:]` is the
whole list, kept faithfully. -/
def truncateFullDebate (full_debate : List RoundResponse) (max_rounds : Nat) :
    List RoundResponse × Bool × Option Nat :=
  if max_rounds < full_debate.length then
    (if max_rounds = 0 then full_debate
     else full_debate.drop (full_debate.length - max_rounds),
     true, some full_debate.length)
  else
    (full_debate, false, none)

/-- A 2-round, 2-participant debate transcript (4 entries). -/
def fdC9 : List RoundResponse :=
  [⟨1, "m1@claude", "neutral", "a1", "t1"⟩,
   ⟨1, "m2@codex", "neutral", "b1", "t2"⟩,
   ⟨2, "m1@claude", "neutral", "a2", "t3"⟩,
   ⟨2, "m2@codex", "neutral", "b2", "t4"⟩]

/-! ## Decision-graph retrieval: tiered, budget-aware context formatting
(`decision_graph/retrieval.py`) -/
/-- Modelled from the spec: `DecisionNode` (`decision_graph/schema.py` is
imported throughout `src/` but absent from it); fields as listed in the spec
and as selected by the SQL in `decision_graph/storage.py`. The timestamp is
kept as its ISO string, which is how the formatter displays it. -/
structure DecisionNode where
  id : String
  question : String
  timestamp : String
  consensus : String
  winning_option : Option String
  convergence_status : String
  participants : List String
  transcript_path : String
deriving DecidableEq, Repr

/-- Modelled from the spec: `ParticipantStance` (`decision_graph/schema.py`
is absent from `src/`); fields as in the spec and the storage SQL. -/
structure ParticipantStance where
  decision_id : String
  participant : String
  vote_option : Option String
  confidence : Option ℚ
  rationale : Option String
  final_position : String
deriving DecidableEq, Repr

/-- The retriever's storage collaborator:
`DecisionGraphStorage.get_participant_stances`, modelled as a pure read. -/
structure RetrievalEnv where
  stances : String → List ParticipantStance

/-- `round(q * 100)` on exact rationals via integer floor division
(round-half-up); models Python float formatting of the two-decimal scores
used by the formatter, on which it is exact. -/
def twoDecScaled (q : ℚ) : Int :=
  Int.fdiv (2 * (q.num * 100) + (q.den : Int)) (2 * (q.den : Int))

/-- Python `f"{score:.2f}"` for the non-negative scores displayed by the
formatter. -/
def fmtTwoDec (q : ℚ) : String :=
  let n := twoDecScaled q
  (if n < 0 then "-" else "") ++ toString (n.natAbs / 100) ++ "." ++
    (if n.natAbs % 100 < 10 then "0" else "") ++ toString (n.natAbs % 100)

/-- Python `f"{confidence * 100:.0f}"`. -/
def fmtConfidencePct (c : ℚ) : String :=
  let n := twoDecScaled c
  (if n < 0 then "-" else "") ++ toString n.natAbs

/-- One stance line of `_format_strong_tier`: vote clause only when
`vote_option` is truthy, confidence sub-clause only when present, rationale
clause only when truthy. -/
def stanceLine (st : ParticipantStance) : String :=
  "- **" ++ st.participant ++ "**: " ++
    (match st.vote_option with
     | some vo =>
       if vo.isEmpty then ""
       else
         "Voted for \x27" ++ vo ++ "\x27" ++
           (match st.confidence with
            | some c => " (confidence: " ++ fmtConfidencePct c ++ "%)"
            | none => "")
     | none => "") ++
    (match st.rationale with
     | some r => if r.isEmpty then "" else " - " ++ r
     | none => "")

/-- `_format_strong_tier`: full record with participant stances. -/
def formatStrongTier (env : RetrievalEnv) (d : DecisionNode) (score : ℚ) : String :=
  let lines := ["### Strong Match (similarity: " ++ fmtTwoDec score ++ "): " ++ d.question,
    "**Date**: " ++ d.timestamp,
    "**Convergence Status**: " ++ d.convergence_status,
    "**Consensus**: " ++ d.consensus]
  let lines := lines ++
    (match d.winning_option with
     | some w => if w.isEmpty then [] else ["**Winning Option**: " ++ w]
     | none => [])
  let lines := lines ++ ["**Participants**: " ++ String.intercalate ", " d.participants]
  let stances := env.stances d.id
  let lines := lines ++
    (if stances.isEmpty then []
     else "\n**Participant Positions**:" :: stances.map stanceLine)
  String.intercalate "\n" (lines ++ [""])

/-- `_format_moderate_tier`: question, consensus and optional result. -/
def formatModerateTier (d : DecisionNode) (score : ℚ) : String :=
  let lines := ["### Moderate Match (similarity: " ++ fmtTwoDec score ++ "): " ++ d.question,
    "**Consensus**: " ++ d.consensus]
  let lines := lines ++
    (match d.winning_option with
     | some w => if w.isEmpty then [] else ["**Result**: " ++ w]
     | none => [])
  String.intercalate "\n" (lines ++ [""])

/-- `_format_brief_tier`: a one-liner `question → result`
(`decision.winning_option or decision.consensus[:50]`). -/
def formatBriefTier (d : DecisionNode) (score : ℚ) : String :=
  let result := match d.winning_option with
    | some w => if w.isEmpty then String.mk (d.consensus.data.take 50) else w
    | none => String.mk (d.consensus.data.take 50)
  "- **Brief Match** (" ++ fmtTwoDec score ++ "): " ++ d.question ++ " → " ++ result ++ "\n"

/-- `_estimate_tokens`: Python `len(formatted_str) // 4` — the length in
characters, integer-divided by 4. -/
def estimateTokens (s : String) : Nat := s.length / 4

/-- Following the spec's words ("estimated as bytes/4") for comparison with
the source's character-based `_estimate_tokens`. -/
def specEstimateTokensBytes (s : String) : Nat := s.utf8ByteSize / 4

/-- The noise floor of `format_context_tiered` (`NOISE_FLOOR = 0.40`). -/
def noiseFloor : ℚ := mkRat 2 5

/-- The `strong` / `moderate` boundaries of `tier_boundaries`. -/
structure TierBoundaries where
  strong : ℚ
  moderate : ℚ

/-- Formatting tier of one decision. -/
inductive Tier
  | strong
  | moderate
  | brief
deriving DecidableEq, Repr

/-- Tier selection and per-tier formatting of `format_context_tiered`. -/
def formatForTier (env : RetrievalEnv) (tb : TierBoundaries)
    (d : DecisionNode) (score : ℚ) : String × Tier :=
  if tb.strong ≤ score then (formatStrongTier env d score, .strong)
  else if tb.moderate ≤ score then (formatModerateTier d score, .moderate)
  else (formatBriefTier d score, .brief)

/-- The `tier_distribution` counters. -/
structure TierDist where
  strong : Nat
  moderate : Nat
  brief : Nat
deriving DecidableEq, Repr

def bumpTier (dist : TierDist) : Tier → TierDist
  | .strong => { dist with strong := dist.strong + 1 }
  | .moderate => { dist with moderate := dist.moderate + 1 }
  | .brief => { dist with brief := dist.brief + 1 }

def distSum (d : TierDist) : Nat := d.strong + d.moderate + d.brief

/-- State after the decision loop of `format_context_tiered`. -/
structure TieredOut where
  tokens_used : Nat
  dist : TierDist
  parts : List String
deriving DecidableEq, Repr

/-- The decision loop of `format_context_tiered`: skip scores below the noise
floor; break at the first kept decision whose estimated tokens would push the
running total past the budget; otherwise append and continue. -/
def tieredLoop (env : RetrievalEnv) (tb : TierBoundaries) (budget : Nat) :
    List (DecisionNode × ℚ) → Nat → TierDist → List String → TieredOut
  | [], tokens_used, dist, parts => ⟨tokens_used, dist, parts⟩
  | (d, score) :: rest, tokens_used, dist, parts =>
    if score < noiseFloor then tieredLoop env tb budget rest tokens_used dist parts
    else
      let ft := formatForTier env tb d score
      let dt := estimateTokens ft.1
      if budget < tokens_used + dt then ⟨tokens_used, dist, parts⟩
      else tieredLoop env tb budget rest (tokens_used + dt) (bumpTier dist ft.2) (parts ++ [ft.1])

/-- The header emitted (and counted against the budget) before any decision. -/
def tieredHeader : String := "## Similar Past Deliberations (Tiered by Relevance)\n\n"

/-- Return value of `format_context_tiered`. -/
structure FormatResult where
  formatted : String
  tokens_used : Nat
  tier_distribution : TierDist
deriving DecidableEq, Repr

/-- `DecisionRetriever.format_context_tiered`: empty input short-circuits;
otherwise run the loop seeded with the header's token estimate; if no
decision survived, return the empty context with `tokens_used = 0`. -/
def formatContextTiered (env : RetrievalEnv) (tb : TierBoundaries) (budget : Nat)
    (scored : List (DecisionNode × ℚ)) : FormatResult :=
  if scored.isEmpty then ⟨"", 0, ⟨0, 0, 0⟩⟩
  else
    let out := tieredLoop env tb budget scored (estimateTokens tieredHeader) ⟨0, 0, 0⟩ [tieredHeader]
    if distSum out.dist = 0 then ⟨"", 0, out.dist⟩
    else ⟨String.intercalate "\n" out.parts, out.tokens_used, out.dist⟩

/-- Estimated tokens of one scored decision, at its selected tier. -/
def estOf (env : RetrievalEnv) (tb : TierBoundaries) (ds : DecisionNode × ℚ) : Nat :=
  estimateTokens (formatForTier env tb ds.1 ds.2).1

/-- Total estimated tokens of a list of scored decisions. -/
def estSum (env : RetrievalEnv) (tb : TierBoundaries) (l : List (DecisionNode × ℚ)) : Nat :=
  (l.map (estOf env tb)).sum

/-- Stance oracle with no stored stances. -/
def envTier : RetrievalEnv := ⟨fun _ => []⟩

/-- A brief-tier decision whose one-liner contains the formatter's literal
`→` (3 UTF-8 bytes, 1 character). -/
def dC6 : DecisionNode :=
  { id := "d1", question := "abc", timestamp := "2024-01-01T00:00:00",
    consensus := "", winning_option := some "R", convergence_status := "converged",
    participants := ["m1@claude"], transcript_path := "t.md" }

/-! ## Graph-aware round context (spec-modelled)

`server.py` constructs `DeliberationEngine(adapters=..., config=..., server_dir=...)`;
that graph-aware generation of the engine is absent from `src/` (the present
`deliberation/engine.py` has no `server_dir` parameter and never touches the
decision graph). Its context assembly is modelled from the spec below. -/
/-- As `mkRoundResponse`, with the round context passed explicitly. -/
def mkRoundResponseCtx (env : Env) (round_num : Nat) (prompt : String)
    (ctx : Option String) (idx : Nat) (p : Participant) : RoundResponse :=
  let response_text :=
    match env.invoke p.cli (enhancePromptWithVoting prompt) p.model ctx with
    | .ok t => t
    | .error e => "[ERROR: " ++ e.kind ++ ": " ++ e.msg ++ "]"
  { round := round_num
    participant := p.model ++ "@" ++ p.cli
    stance := p.stance
    response := response_text
    timestamp := env.ts round_num idx }

/-- As `executeRound`, with the round context passed explicitly. -/
def executeRoundCtx (env : Env) (round_num : Nat) (prompt : String)
    (ctx : Option String) (participants : List Participant) : List RoundResponse :=
  participants.enum.map (fun pr => mkRoundResponseCtx env round_num prompt ctx pr.1 pr.2)

/-- Modelled from the spec: the graph-aware engine generation (absent from
`src/`) builds each round's context from the accumulated responses
(`_build_context`, present in `src/`) and, per spec §4.8 step 1, "prepends
graph-retrieved context on round 1 only"; `graphCtx` is the markdown block
from `DecisionGraphIntegration.get_context_for_deliberation` (empty when no
relevant past decision). -/
def graphAwareRoundContext (graphCtx : String) (previous : List RoundResponse)
    (round_num : Nat) : Option String :=
  if round_num = 1 then
    if graphCtx.isEmpty then roundContext previous
    else some (graphCtx ++ (roundContext previous).getD "")
  else roundContext previous

/-- The graph-aware transcript of rounds `1..n` (spec-modelled engine). -/
def graphDebateUpTo (env : Env) (graphCtx : String) (req : DeliberateRequest) :
    Nat → List RoundResponse
  | 0 => []
  | n + 1 =>
    graphDebateUpTo env graphCtx req n ++
      executeRoundCtx env (n + 1) req.question
        (graphAwareRoundContext graphCtx (graphDebateUpTo env graphCtx req n) (n + 1))
        req.participants

/-! ## Theorems -/

theorem computeSimilarity_self (a : String) (h : pyWords (pyLower a) ≠ []) :
    computeSimilarity a a = 1 := by
  have hne : a ≠ "" := by
    intro he
    subst he
    exact h (by decide)
  have hself : (pyWords (pyLower a)).toFinset ≠ (∅ : Finset String) := by
    intro he
    apply h
    have := List.toFinset_eq_empty_iff (l := pyWords (pyLower a))
    exact this.mp he
  unfold computeSimilarity
  rw [if_neg (by simp [hne])]
  simp only
  rw [if_neg (by simp [hself])]
  rw [Finset.inter_self, Finset.union_self]
  rw [if_neg (by simp [hself])]
  have hcard : ((pyWords (pyLower a)).toFinset.card : ℚ) ≠ 0 := by
    have : (pyWords (pyLower a)).toFinset.Nonempty :=
      Finset.nonempty_iff_ne_empty.mpr hself
    have hpos := Finset.card_pos.mpr this
    exact_mod_cast Nat.pos_iff_ne_zero.mp hpos
  exact div_self hcard

theorem computeSimilarity_empty_left (x : String) : computeSimilarity "" x = 0 := by
  unfold computeSimilarity
  rw [if_pos (Or.inl rfl)]

/-! ## Structural lemmas about the round loop -/
theorem executeRound_length (env : Env) (round_num : Nat) (prompt : String)
    (participants : List Participant) (previous : List RoundResponse) :
    (executeRound env round_num prompt participants previous).length = participants.length := by
  simp [executeRound]

theorem debateUpTo_length (env : Env) (req : DeliberateRequest) (n : Nat) :
    (debateUpTo env req n).length = n * req.participants.length := by
  induction n with
  | zero => simp [debateUpTo]
  | succ k ih => simp [debateUpTo, ih, executeRound_length, Nat.succ_mul]

theorem convergenceCheck_impasse_status {env : Env}
    {a b : List RoundResponse} {r : Nat} {finfo : Option ConvergenceResult}
    {cres : ConvergenceResult}
    (h : convergenceCheck env a b r finfo = .breakImpasse cres) :
    cres.status = "impasse" := by
  unfold convergenceCheck at h
  split at h
  · exact absurd h (by simp)
  · split at h
    · split at h
      · exact absurd h (by simp)
      · split at h
        · exact absurd h (by simp)
        · split at h
          · cases h
            assumption
          · exact absurd h (by simp)
    · exact absurd h (by simp)

theorem convergenceCheck_continue_isImpasse {env : Env}
    {a b : List RoundResponse} {r : Nat} {finfo f2 : Option ConvergenceResult}
    (h : convergenceCheck env a b r finfo = .continueWith f2)
    (h0 : isImpasse finfo = false) : isImpasse f2 = false := by
  unfold convergenceCheck at h
  split at h
  · cases h
    exact h0
  · split at h
    · split at h
      · cases h
        exact h0
      · split at h
        · exact absurd h (by simp)
        · split at h
          · exact absurd h (by simp)
          · cases h
            next cres hne hc2 =>
              simp only [isImpasse]
              exact beq_eq_false_iff_ne.mpr hc2
    · cases h
      exact h0

/-- Core invariant of the round loop: starting at round `round_num` with the
accumulated transcript of rounds `1..round_num - 1`, the loop returns exactly
the transcript of rounds `1..last`, with `last` between `round_num` and the
planned final round, and the loop runs out the full plan unless one of the
early-stop conditions fired. -/
theorem roundsLoop_spec (env : Env) (req : DeliberateRequest) :
    ∀ (remaining round_num : Nat) (finfo : Option ConvergenceResult),
    1 ≤ round_num → isImpasse finfo = false →
    (roundsLoop env req remaining round_num (debateUpTo env req (round_num - 1)) finfo).responses
      = debateUpTo env req (roundsLoop env req remaining round_num (debateUpTo env req (round_num - 1)) finfo).last ∧
    round_num ≤ (roundsLoop env req remaining round_num (debateUpTo env req (round_num - 1)) finfo).last ∧
    (roundsLoop env req remaining round_num (debateUpTo env req (round_num - 1)) finfo).last ≤ round_num + remaining ∧
    (((roundsLoop env req remaining round_num (debateUpTo env req (round_num - 1)) finfo).converged
        || (roundsLoop env req remaining round_num (debateUpTo env req (round_num - 1)) finfo).modelStop
        || isImpasse (roundsLoop env req remaining round_num (debateUpTo env req (round_num - 1)) finfo).finfo) = false →
      (roundsLoop env req remaining round_num (debateUpTo env req (round_num - 1)) finfo).last = round_num + remaining) := by
  intro remaining
  induction remaining with
  | zero =>
    intro round_num finfo h1 h0
    have hsucc : round_num - 1 + 1 = round_num := Nat.succ_pred_eq_of_pos h1
    have hacc : debateUpTo env req (round_num - 1) ++
        executeRound env round_num req.question req.participants (debateUpTo env req (round_num - 1))
          = debateUpTo env req round_num := by
      conv_rhs => rw [← hsucc]
      rw [debateUpTo, hsucc]
    rw [roundsLoop]
    split
    · exact ⟨by simpa using hacc, by simp, by simp, by simp⟩
    · split
      next cres heq => exact ⟨by simpa using hacc, by simp, by simp, by simp⟩
      next cres heq =>
        have hst := convergenceCheck_impasse_status heq
        refine ⟨by simpa using hacc, by simp, by simp, ?_⟩
        simp [isImpasse, hst]
      next f2 heq =>
        have himp := convergenceCheck_continue_isImpasse heq h0
        exact ⟨by simpa using hacc, by simp, by simp, by simp⟩
  | succ remaining' ih =>
    intro round_num finfo h1 h0
    have hsucc : round_num - 1 + 1 = round_num := Nat.succ_pred_eq_of_pos h1
    have hacc : debateUpTo env req (round_num - 1) ++
        executeRound env round_num req.question req.participants (debateUpTo env req (round_num - 1))
          = debateUpTo env req round_num := by
      conv_rhs => rw [← hsucc]
      rw [debateUpTo, hsucc]
    rw [roundsLoop]
    split
    · exact ⟨by simpa using hacc, by simp, by simp [Nat.le_add_right], by simp⟩
    · split
      next cres heq => exact ⟨by simpa using hacc, by simp, by simp [Nat.le_add_right], by simp⟩
      next cres heq =>
        have hst := convergenceCheck_impasse_status heq
        refine ⟨by simpa using hacc, by simp, by simp [Nat.le_add_right], ?_⟩
        simp [isImpasse, hst]
      next f2 heq =>
        have himp := convergenceCheck_continue_isImpasse heq h0
        have h1' : 1 ≤ round_num + 1 := by omega
        have hpred : round_num + 1 - 1 = round_num := by omega
        have key := ih (round_num + 1) f2 h1' himp
        rw [hpred] at key
        obtain ⟨k1, k2, k3, k4⟩ := key
        rw [hacc]
        refine ⟨k1, by omega, by omega, ?_⟩
        intro hflags
        have := k4 hflags
        omega

/-- `execute` in terms of the transcript function: the returned `full_debate`
is exactly the transcript of rounds `1..rounds_completed`, and
`rounds_completed` is between 1 and the requested round count, equal to 1 in
quick mode. -/
theorem execute_spec (env : Env) (req : DeliberateRequest) (h : 1 ≤ req.rounds) :
    (execute env req).full_debate = debateUpTo env req (execute env req).rounds_completed ∧
    1 ≤ (execute env req).rounds_completed ∧
    (execute env req).rounds_completed ≤ req.rounds ∧
    (req.mode = DelibMode.quick → (execute env req).rounds_completed = 1) := by
  have hd : debateUpTo env req (1 - 1) = ([] : List RoundResponse) := rfl
  cases hm : req.mode with
  | quick =>
    have key := roundsLoop_spec env req (1 - 1) 1 none (le_refl 1) rfl
    rw [hd] at key
    obtain ⟨k1, k2, k3, k4⟩ := key
    have hlast : (roundsLoop env req (1 - 1) 1 [] none).last = 1 := by omega
    rw [hlast] at k1
    simp only [execute, hm]
    rw [hlast]
    simp only [ite_self]
    exact ⟨k1, le_refl 1, h, fun _ => trivial⟩
  | conference =>
    have key := roundsLoop_spec env req (req.rounds - 1) 1 none (le_refl 1) rfl
    rw [hd] at key
    obtain ⟨k1, k2, k3, k4⟩ := key
    simp only [execute, hm]
    by_cases hes : ((roundsLoop env req (req.rounds - 1) 1 [] none).converged
        || (roundsLoop env req (req.rounds - 1) 1 [] none).modelStop
        || isImpasse (roundsLoop env req (req.rounds - 1) 1 [] none).finfo) = true
    · rw [if_pos hes]
      exact ⟨k1, k2, by omega, fun hq => by simp at hq⟩
    · rw [if_neg hes]
      have hfl : ((roundsLoop env req (req.rounds - 1) 1 [] none).converged
          || (roundsLoop env req (req.rounds - 1) 1 [] none).modelStop
          || isImpasse (roundsLoop env req (req.rounds - 1) 1 [] none).finfo) = false :=
        Bool.eq_false_iff.mpr hes
      have hlast := k4 hfl
      have hrr : 1 + (req.rounds - 1) = req.rounds := by omega
      rw [hrr] at hlast
      rw [hlast] at k1
      exact ⟨k1, h, le_refl _, fun hq => by simp at hq⟩

theorem executeRound_getElem (env : Env) (round_num : Nat) (prompt : String)
    (participants : List Participant) (previous : List RoundResponse)
    (i : Nat) (hi : i < participants.length) :
    (executeRound env round_num prompt participants previous)[i]? =
      some (mkRoundResponse env round_num prompt previous i (participants.get ⟨i, hi⟩)) := by
  unfold executeRound
  rw [List.getElem?_map, List.getElem?_enum, List.getElem?_eq_getElem hi]
  rfl

/-- Slot `(r - 1) * p + i` of the transcript of rounds `1..n` is participant
`i`'s response in round `r`, built over the accumulated context of rounds
`1..r - 1`. -/
theorem debateUpTo_getElem (env : Env) (req : DeliberateRequest) (n r i : Nat)
    (h1 : 1 ≤ r) (h2 : r ≤ n) (hi : i < req.participants.length) :
    (debateUpTo env req n)[(r - 1) * req.participants.length + i]? =
      some (mkRoundResponse env r req.question (debateUpTo env req (r - 1)) i
        (req.participants.get ⟨i, hi⟩)) := by
  induction n with
  | zero => omega
  | succ k ih =>
    rw [debateUpTo]
    by_cases hr : r ≤ k
    · have hlt : (r - 1) * req.participants.length + i < (debateUpTo env req k).length := by
        rw [debateUpTo_length]
        have hp : 1 ≤ req.participants.length := by omega
        have : (r - 1) * req.participants.length + req.participants.length
            ≤ k * req.participants.length := by
          have : (r - 1) + 1 ≤ k := by omega
          calc (r - 1) * req.participants.length + req.participants.length
              = ((r - 1) + 1) * req.participants.length := by ring
            _ ≤ k * req.participants.length := Nat.mul_le_mul_right _ this
        omega
      rw [List.getElem?_append, if_pos hlt]
      exact ih hr
    · have hrk : r = k + 1 := by omega
      subst hrk
      simp only [Nat.add_sub_cancel]
      have hlen : (debateUpTo env req k).length = k * req.participants.length :=
        debateUpTo_length env req k
      have hidx : k * req.participants.length + i
          = (debateUpTo env req k).length + i := by
        rw [hlen]
      rw [hidx, List.getElem?_append, if_neg (by omega)]
      have hsub : (debateUpTo env req k).length + i - (debateUpTo env req k).length = i := by
        omega
      rw [hsub]
      exact executeRound_getElem env (k + 1) req.question req.participants
        (debateUpTo env req k) i hi

theorem debateUpTo_congr (env : Env) (req1 req2 : DeliberateRequest)
    (hq : req1.question = req2.question)
    (hp : req1.participants = req2.participants) :
    ∀ n, debateUpTo env req1 n = debateUpTo env req2 n := by
  intro n
  induction n with
  | zero => rfl
  | succ k ih => rw [debateUpTo, debateUpTo, ih, hq, hp]

theorem roundsLoop_congr (env : Env) (req1 req2 : DeliberateRequest)
    (hq : req1.question = req2.question)
    (hp : req1.participants = req2.participants)
    (hr : req1.rounds = req2.rounds) :
    ∀ remaining round_num acc finfo,
      roundsLoop env req1 remaining round_num acc finfo
        = roundsLoop env req2 remaining round_num acc finfo := by
  intro remaining
  induction remaining with
  | zero =>
    intro round_num acc finfo
    simp only [roundsLoop, hq, hp, hr]
  | succ k ih =>
    intro round_num acc finfo
    simp only [roundsLoop, hq, hp, hr]
    split
    · rfl
    · split <;> simp only [ih]

theorem execute_congr (env : Env) (req1 req2 : DeliberateRequest)
    (hq : req1.question = req2.question)
    (hp : req1.participants = req2.participants)
    (hr : req1.rounds = req2.rounds)
    (hm : req1.mode = req2.mode) :
    execute env req1 = execute env req2 := by
  simp only [execute, hq, hp, hr, hm, roundsLoop_congr env req1 req2 hq hp hr]

theorem invocationTrace_congr (env : Env) (req1 req2 : DeliberateRequest)
    (hq : req1.question = req2.question)
    (hp : req1.participants = req2.participants)
    (hr : req1.rounds = req2.rounds)
    (hm : req1.mode = req2.mode) :
    invocationTrace env req1 = invocationTrace env req2 := by
  unfold invocationTrace invocationArgs
  rw [execute_congr env req1 req2 hq hp hr hm, hq, hp]
  congr 1
  apply List.map_congr_left
  intro k _
  rw [debateUpTo_congr env req1 req2 hq hp]

/-- C1: for every validated `DeliberateRequest`, `execute` returns
`rounds_completed` between 1 and the requested rounds inclusive, and quick
mode always completes exactly one round. -/
theorem rounds_completed_in_range (env : Env) (req : DeliberateRequest)
    (h : ValidatedRequest req) :
    (1 ≤ (execute env req).rounds_completed ∧
      (execute env req).rounds_completed ≤ req.rounds) ∧
    (req.mode = DelibMode.quick → (execute env req).rounds_completed = 1) := by
  obtain ⟨-, -, h3, -⟩ := h
  have hs := execute_spec env req h3
  exact ⟨⟨hs.2.1, hs.2.2.1⟩, hs.2.2.2⟩

theorem rounds_completed_in_range_witness :
    (1 ≤ (execute envW reqW).rounds_completed ∧
      (execute envW reqW).rounds_completed ≤ reqW.rounds) ∧
    (reqW.mode = DelibMode.quick → (execute envW reqW).rounds_completed = 1) :=
  rounds_completed_in_range envW reqW (by decide)

/-- C2: the returned `full_debate` has exactly
`rounds_completed * len(participants)` entries; slot `(r-1)*p + i` belongs to
round `r` and participant `i`, and carries the synthetic error text whenever
that participant's adapter invocation failed. -/
theorem full_debate_shape (env : Env) (req : DeliberateRequest)
    (h : ValidatedRequest req) :
    (execute env req).full_debate.length
        = (execute env req).rounds_completed * req.participants.length ∧
    (∀ r i, 1 ≤ r → r ≤ (execute env req).rounds_completed →
      ∀ hi : i < req.participants.length,
      ∃ entry,
        (execute env req).full_debate[(r - 1) * req.participants.length + i]? = some entry ∧
        entry.round = r ∧
        entry.participant = (req.participants.get ⟨i, hi⟩).model ++ "@"
          ++ (req.participants.get ⟨i, hi⟩).cli ∧
        (∀ e, env.invoke (req.participants.get ⟨i, hi⟩).cli
            (enhancePromptWithVoting req.question) (req.participants.get ⟨i, hi⟩).model
            (roundContext (debateUpTo env req (r - 1))) = .error e →
          entry.response = "[ERROR: " ++ e.kind ++ ": " ++ e.msg ++ "]")) := by
  obtain ⟨-, -, h3, -⟩ := h
  have hs := execute_spec env req h3
  constructor
  · rw [hs.1, debateUpTo_length]
  · intro r i h1 h2 hi
    rw [hs.1]
    refine ⟨_, debateUpTo_getElem env req (execute env req).rounds_completed r i h1 h2 hi,
      rfl, rfl, ?_⟩
    intro e herr
    simp only [mkRoundResponse, herr]

theorem full_debate_shape_witness :
    (execute envW reqW).full_debate.length
        = (execute envW reqW).rounds_completed * reqW.participants.length ∧
    (∃ entry,
        (execute envW reqW).full_debate[(1 - 1) * reqW.participants.length + 0]? = some entry ∧
        entry.round = 1) := by
  obtain ⟨hlen, hslot⟩ := full_debate_shape envW reqW (by decide)
  refine ⟨hlen, ?_⟩
  obtain ⟨entry, he1, he2, -⟩ :=
    hslot 1 0 (by decide) (by decide) (by decide)
  exact ⟨entry, he1, he2⟩

/-- C5: when the adapter invocation of participant `i` in an executed round
`r` raises an error, that slot of `full_debate` carries exactly the synthetic
`[ERROR: kind: msg]` text, the round and all executed rounds still hold one
entry per participant, and the deliberation status is `"complete"`. -/
theorem adapter_error_is_contained (env : Env) (req : DeliberateRequest)
    (h : ValidatedRequest req) (r i : Nat) (e : AdapterError)
    (h1 : 1 ≤ r) (h2 : r ≤ (execute env req).rounds_completed)
    (hi : i < req.participants.length)
    (herr : env.invoke (req.participants.get ⟨i, hi⟩).cli
      (enhancePromptWithVoting req.question) (req.participants.get ⟨i, hi⟩).model
      (roundContext (debateUpTo env req (r - 1))) = .error e) :
    ((execute env req).full_debate[(r - 1) * req.participants.length + i]?).map
        RoundResponse.response
      = some ("[ERROR: " ++ e.kind ++ ": " ++ e.msg ++ "]") ∧
    (execute env req).full_debate.length
      = (execute env req).rounds_completed * req.participants.length ∧
    (execute env req).status = "complete" := by
  obtain ⟨-, -, h3, -⟩ := h
  have hs := execute_spec env req h3
  refine ⟨?_, by rw [hs.1, debateUpTo_length], rfl⟩
  rw [hs.1, debateUpTo_getElem env req (execute env req).rounds_completed r i h1 h2 hi]
  simp only [Option.map_some', mkRoundResponse, herr]

theorem adapter_error_is_contained_witness :
    ((execute envFail reqW).full_debate[(1 - 1) * reqW.participants.length + 1]?).map
        RoundResponse.response
      = some ("[ERROR: " ++ "RuntimeError" ++ ": " ++ "boom" ++ "]") ∧
    (execute envFail reqW).full_debate.length
      = (execute envFail reqW).rounds_completed * reqW.participants.length ∧
    (execute envFail reqW).status = "complete" :=
  adapter_error_is_contained envFail reqW (by decide) 1 1 ⟨"RuntimeError", "boom"⟩
    (by decide) (by decide) (by decide) (by rfl)

/-- C10: two requests that differ only in the optional free-form `context`
field produce the same adapter invocations (same cli, prompt, model and
context argument in every round) and the same result: the engine never reads
`request.context`. -/
theorem request_context_never_read (env : Env) (q : String) (ps : List Participant)
    (n : Nat) (m : DelibMode) (c1 c2 : Option String) :
    execute env ⟨q, ps, n, m, c1⟩ = execute env ⟨q, ps, n, m, c2⟩ ∧
    invocationTrace env ⟨q, ps, n, m, c1⟩ = invocationTrace env ⟨q, ps, n, m, c2⟩ :=
  ⟨execute_congr env _ _ rfl rfl rfl rfl,
   invocationTrace_congr env _ _ rfl rfl rfl rfl⟩

theorem keys_nodup_entry_eq {t : List (String × Nat)}
    (h : (t.map Prod.fst).Nodup) {a b : String × Nat}
    (ha : a ∈ t) (hb : b ∈ t) (hk : a.1 = b.1) : a = b := by
  induction t with
  | nil => cases ha
  | cons x xs ih =>
    rw [List.map_cons, List.nodup_cons] at h
    rcases List.mem_cons.mp ha with ha1 | ha2
    · rcases List.mem_cons.mp hb with hb1 | hb2
      · rw [ha1, hb1]
      · subst ha1
        exfalso
        apply h.1
        rw [hk]
        exact List.mem_map_of_mem Prod.fst hb2
    · rcases List.mem_cons.mp hb with hb1 | hb2
      · subst hb1
        exfalso
        apply h.1
        rw [← hk]
        exact List.mem_map_of_mem Prod.fst ha2
      · exact ih h.2 ha2 hb2

theorem init_le_foldl_max (l : List Nat) (b : Nat) : b ≤ l.foldl Nat.max b := by
  induction l generalizing b with
  | nil => exact le_refl b
  | cons x xs ih => exact le_trans (Nat.le_max_left b x) (ih (Nat.max b x))

theorem le_foldl_max (l : List Nat) (b : Nat) : ∀ a ∈ l, a ≤ l.foldl Nat.max b := by
  induction l generalizing b with
  | nil => intro a ha; cases ha
  | cons x xs ih =>
    intro a ha
    rcases List.mem_cons.mp ha with h1 | h2
    · subst h1
      exact le_trans (Nat.le_max_right b a) (init_le_foldl_max xs (Nat.max b a))
    · exact ih (Nat.max b x) a h2

theorem foldl_max_le (l : List Nat) (b m : Nat) (hb : b ≤ m)
    (h : ∀ a ∈ l, a ≤ m) : l.foldl Nat.max b ≤ m := by
  induction l generalizing b with
  | nil => exact hb
  | cons x xs ih =>
    exact ih (Nat.max b x) (Nat.max_le.mpr ⟨hb, h x (List.mem_cons_self x xs)⟩)
      (fun a ha => h a (List.mem_cons_of_mem x ha))

theorem filter_eq_singleton {α : Type} {l : List α} {P : α → Bool} {a : α}
    (hnd : l.Nodup) (ha : a ∈ l) (hP : ∀ x ∈ l, P x = true ↔ x = a) :
    l.filter P = [a] := by
  induction l with
  | nil => cases ha
  | cons x xs ih =>
    rw [List.nodup_cons] at hnd
    rcases List.mem_cons.mp ha with h1 | h2
    · subst h1
      rw [List.filter_cons, if_pos ((hP a (List.mem_cons_self a xs)).mpr rfl)]
      have hnil : xs.filter P = [] := by
        rw [List.filter_eq_nil_iff]
        intro y hy hPy
        have := (hP y (List.mem_cons_of_mem a hy)).mp hPy
        subst this
        exact hnd.1 hy
      rw [hnil]
    · have hPx : ¬(P x = true) := by
        intro hPx
        have := (hP x (List.mem_cons_self x xs)).mp hPx
        subst this
        exact hnd.1 h2
      rw [List.filter_cons, if_neg hPx]
      exact ih hnd.2 h2 (fun y hy => hP y (List.mem_cons_of_mem x hy))

theorem tallyAdd_keys (t : List (String × Nat)) (opt : String) :
    (tallyAdd t opt).map Prod.fst =
      if t.any (fun p => p.1 = opt) then t.map Prod.fst
      else t.map Prod.fst ++ [opt] := by
  unfold tallyAdd
  split
  · next hany =>
    rw [List.map_map]
    apply List.map_congr_left
    intro p _
    by_cases hh : p.1 = opt <;> simp [hh]
  · next hany =>
    simp

theorem tallyAdd_keys_nodup (t : List (String × Nat)) (opt : String)
    (h : (t.map Prod.fst).Nodup) : ((tallyAdd t opt).map Prod.fst).Nodup := by
  rw [tallyAdd_keys]
  split
  · exact h
  · next hany =>
    rw [List.nodup_append]
    refine ⟨h, List.nodup_singleton opt, ?_⟩
    intro a hal har
    rw [List.mem_singleton] at har
    subst har
    obtain ⟨p, hp, hpa⟩ := List.mem_map.mp hal
    exact hany (List.any_eq_true.mpr ⟨p, hp, by simp [hpa]⟩)

theorem tallyOf_keys_nodup (votes : List RoundVote) :
    ((tallyOf votes).map Prod.fst).Nodup := by
  have key : ∀ (l : List RoundVote) (t : List (String × Nat)),
      (t.map Prod.fst).Nodup →
      ((l.foldl (fun t rv => tallyAdd t rv.vote.option) t).map Prod.fst).Nodup := by
    intro l
    induction l with
    | nil => intro t h; exact h
    | cons v vs ih =>
      intro t h
      exact ih _ (tallyAdd_keys_nodup _ _ h)
  exact key votes [] (by simp)

theorem consensusOf_of_uniqueStrictMax (t : List (String × Nat)) (w : String) (c : Nat)
    (hnd : (t.map Prod.fst).Nodup) (h : UniqueStrictMax t w c) :
    consensusOf t = (true, some w) := by
  obtain ⟨hmem, hlt⟩ := h
  cases t with
  | nil => cases hmem
  | cons x xs =>
    cases xs with
    | nil =>
      have hx : (w, c) = x := List.mem_singleton.mp hmem
      rw [consensusOf, ← hx]
    | cons y ys =>
      have hle : ∀ p ∈ x :: y :: ys, p.2 ≤ c := by
        intro p hp
        by_cases hpw : p.1 = w
        · have : p = (w, c) := keys_nodup_entry_eq hnd hp hmem hpw
          rw [this]
        · exact le_of_lt (hlt p hp hpw)
      have hmax_le : ((x :: y :: ys).map (fun p => p.2)).foldl Nat.max 0 ≤ c :=
        foldl_max_le _ 0 c (Nat.zero_le c) (by
          intro a ha
          obtain ⟨p, hp, hpa⟩ := List.mem_map.mp ha
          rw [← hpa]
          exact hle p hp)
      have hc_le : c ≤ ((x :: y :: ys).map (fun p => p.2)).foldl Nat.max 0 :=
        le_foldl_max _ 0 c (List.mem_map.mpr ⟨(w, c), hmem, rfl⟩)
      have hmax : ((x :: y :: ys).map (fun p => p.2)).foldl Nat.max 0 = c :=
        le_antisymm hmax_le hc_le
      have hfil : (x :: y :: ys).filter (fun p => p.2 = c) = [(w, c)] := by
        apply filter_eq_singleton (List.Nodup.of_map Prod.fst hnd) hmem
        intro p hp
        constructor
        · intro hPc
          have hpc : p.2 = c := of_decide_eq_true hPc
          by_cases hpw : p.1 = w
          · exact keys_nodup_entry_eq hnd hp hmem hpw
          · exact absurd hpc (Nat.ne_of_lt (hlt p hp hpw))
        · intro hpe
          subst hpe
          exact decide_eq_true rfl
      rw [consensusOf]
      rw [hmax, hfil]
      rfl

theorem consensusOf_of_tie (t : List (String × Nat))
    (hnd : (t.map Prod.fst).Nodup) (h : TiedAtMax t) :
    consensusOf t = (false, none) := by
  obtain ⟨p, q, hp, hq, hpq, hcnt, hmaxp⟩ := h
  cases t with
  | nil => cases hp
  | cons x xs =>
    cases xs with
    | nil =>
      have hp1 := List.mem_singleton.mp hp
      have hq1 := List.mem_singleton.mp hq
      rw [hp1, hq1] at hpq
      exact absurd rfl hpq
    | cons y ys =>
      have hmax_le : ((x :: y :: ys).map (fun r => r.2)).foldl Nat.max 0 ≤ p.2 :=
        foldl_max_le _ 0 p.2 (Nat.zero_le _) (by
          intro a ha
          obtain ⟨r, hr, hra⟩ := List.mem_map.mp ha
          rw [← hra]
          exact hmaxp r hr)
      have hp_le : p.2 ≤ ((x :: y :: ys).map (fun r => r.2)).foldl Nat.max 0 :=
        le_foldl_max _ 0 p.2 (List.mem_map.mpr ⟨p, hp, rfl⟩)
      have hmax : ((x :: y :: ys).map (fun r => r.2)).foldl Nat.max 0 = p.2 :=
        le_antisymm hmax_le hp_le
      have hpf : p ∈ (x :: y :: ys).filter (fun r => r.2 = p.2) :=
        List.mem_filter.mpr ⟨hp, decide_eq_true rfl⟩
      have hqf : q ∈ (x :: y :: ys).filter (fun r => r.2 = p.2) :=
        List.mem_filter.mpr ⟨hq, decide_eq_true hcnt.symm⟩
      rw [consensusOf, hmax]
      rcases hw : ((x :: y :: ys).filter (fun r => r.2 = p.2)).map (fun r => r.1)
        with - | ⟨w, rest⟩
      · rw [hw]
      · cases rest with
        | nil =>
          exfalso
          have hpw : p.1 ∈ [w] := by
            rw [← hw]
            exact List.mem_map.mpr ⟨p, hpf, rfl⟩
          have hqw : q.1 ∈ [w] := by
            rw [← hw]
            exact List.mem_map.mpr ⟨q, hqf, rfl⟩
          rw [List.mem_singleton.mp hpw, List.mem_singleton.mp hqw] at hpq
          exact absurd rfl hpq
        | cons w2 rest2 => rw [hw]

/-- C3: when at least one vote parses, `_aggregate_votes` returns a
`VotingResult`; a unique strict-maximum option in the final tally (including
the single-option case) gives `consensus_reached = true` with that winner,
and a tie at the maximum gives `consensus_reached = false` and no winner. -/
theorem vote_aggregation_consensus (env : Env) (responses : List RoundResponse)
    (h : voteRecords env responses ≠ []) :
    ∃ vr, aggregateVotes env responses = some vr ∧
      vr.final_tally = tallyOf (voteRecords env responses) ∧
      (∀ w c, UniqueStrictMax vr.final_tally w c →
        vr.consensus_reached = true ∧ vr.winning_option = some w) ∧
      (TiedAtMax vr.final_tally →
        vr.consensus_reached = false ∧ vr.winning_option = none) := by
  refine ⟨{ final_tally := tallyOf (voteRecords env responses)
            votes_by_round := voteRecords env responses
            consensus_reached := (consensusOf (tallyOf (voteRecords env responses))).1
            winning_option := (consensusOf (tallyOf (voteRecords env responses))).2 },
    ?_, rfl, ?_, ?_⟩
  · unfold aggregateVotes
    rw [if_neg (by simpa using h)]
  · intro w c hmax
    have hc := consensusOf_of_uniqueStrictMax _ w c (tallyOf_keys_nodup _) hmax
    rw [hc]
    exact ⟨rfl, rfl⟩
  · intro htie
    have hc := consensusOf_of_tie _ (tallyOf_keys_nodup _) htie
    rw [hc]
    exact ⟨rfl, rfl⟩

theorem vote_aggregation_consensus_witness :
    ∃ vr, aggregateVotes envVotes respsVotes = some vr ∧
      vr.consensus_reached = true ∧ vr.winning_option = some "A" := by
  obtain ⟨vr, h1, h2, h3, -⟩ := vote_aggregation_consensus envVotes respsVotes (by decide)
  have hm : UniqueStrictMax vr.final_tally "A" 2 := by
    rw [h2]
    constructor
    · decide
    · decide
  obtain ⟨hc, hw⟩ := h3 "A" 2 hm
  exact ⟨vr, h1, hc, hw⟩

/-- C4 evaluation: in round 2 both participants cast `continue_debate = false`
votes, yet `_check_early_stopping` — fed `request.rounds` (= 5) as the
minimum-round bound — returns `false` at round 2, and the engine runs all 5
rounds instead of stopping after round 2. -/
theorem early_stop_scenario_runs_all_rounds :
    ((debateUpTo envC4 reqC4 2).drop 2).all
        (fun r => ((envC4.parseVote r.response).map (fun v => !v.continue_debate)).getD false)
      = true ∧
    checkEarlyStopping envC4 ((debateUpTo envC4 reqC4 2).drop 2) 2 reqC4.rounds = false ∧
    (execute envC4 reqC4).rounds_completed = 5 := by
  refine ⟨by decide, by decide, by decide⟩

/-- C7 (amended): for every text containing at least one whitespace-delimited
word, the always-available Jaccard backend satisfies
`similarity(a, a) = 1.0`; and `similarity("", x) = 0.0` for every `x`. -/
theorem jaccard_identity_and_empty :
    (∀ a : String, pyWords (pyLower a) ≠ [] → computeSimilarity a a = 1) ∧
    (∀ x : String, computeSimilarity "" x = 0) :=
  ⟨computeSimilarity_self, computeSimilarity_empty_left⟩

theorem jaccard_identity_and_empty_witness :
    computeSimilarity "hello world" "hello world" = 1 ∧
    computeSimilarity "" "abc" = 0 :=
  ⟨jaccard_identity_and_empty.1 "hello world" (by decide),
   jaccard_identity_and_empty.2 "abc"⟩

/-- C7 counterexample: the whitespace-only text `" "` yields
`similarity(" ", " ") = 0`, refuting `similarity(a, a) = 1.0` for **every**
text `a` (the same holds at `a = ""`). -/
theorem jaccard_self_not_one_on_whitespace :
    computeSimilarity " " " " ≠ 1 := by decide

/-- C9 evaluation at the failing input: a deliberation with only 2 completed
rounds (every entry has round ≤ 2) and the default cap of 3 is nevertheless
truncated — the code compares and slices `full_debate` **entries**, not
rounds: it keeps the last 3 entries (splitting round 1) and reports
`total_rounds = 4`, the entry count, instead of the 2 completed rounds. -/
theorem truncation_counts_entries_not_rounds :
    truncateFullDebate fdC9 3 = (fdC9.drop 1, true, some 4) ∧
    (∀ e ∈ fdC9, e.round ≤ 2) :=
  ⟨by decide, by decide⟩

theorem estSum_nil (env : RetrievalEnv) (tb : TierBoundaries) :
    estSum env tb [] = 0 := rfl

theorem estSum_cons (env : RetrievalEnv) (tb : TierBoundaries)
    (x : DecisionNode × ℚ) (l : List (DecisionNode × ℚ)) :
    estSum env tb (x :: l) = estOf env tb x + estSum env tb l := by
  simp [estSum]

theorem distSum_bump (dist : TierDist) (t : Tier) :
    distSum (bumpTier dist t) = distSum dist + 1 := by
  cases t <;> simp [bumpTier, distSum] <;> omega

/-- The decision loop is a greedy prefix scan of the above-noise-floor
decisions: some prefix `pre` is included (all fitting the budget, in order),
and either everything above the floor was included or the first dropped
decision is exactly the one that would overflow the budget. -/
theorem tieredLoop_spec (env : RetrievalEnv) (tb : TierBoundaries) (budget : Nat) :
    ∀ (rest : List (DecisionNode × ℚ)) (tokens : Nat) (dist : TierDist) (parts : List String),
    ∃ pre suf,
      rest.filter (fun ds => noiseFloor ≤ ds.2) = pre ++ suf ∧
      (tieredLoop env tb budget rest tokens dist parts).tokens_used
        = tokens + estSum env tb pre ∧
      distSum (tieredLoop env tb budget rest tokens dist parts).dist
        = distSum dist + pre.length ∧
      (pre ≠ [] → tokens + estSum env tb pre ≤ budget) ∧
      (∀ d0, suf.head? = some d0 →
        budget < tokens + estSum env tb pre + estOf env tb d0) := by
  intro rest
  induction rest with
  | nil =>
    intro tokens dist parts
    refine ⟨[], [], rfl, by simp [tieredLoop, estSum_nil], by simp [tieredLoop], ?_, ?_⟩
    · intro h
      exact absurd rfl h
    · intro d0 hd0
      cases hd0
  | cons hd tl ih =>
    intro tokens dist parts
    obtain ⟨d, score⟩ := hd
    have hEst : estimateTokens (formatForTier env tb d score).1 = estOf env tb (d, score) := rfl
    by_cases hs : score < noiseFloor
    · obtain ⟨pre, suf, h1, h2, h3, h4, h5⟩ := ih tokens dist parts
      refine ⟨pre, suf, ?_, ?_, ?_, h4, h5⟩
      · rw [List.filter_cons, if_neg (by simpa using not_le.mpr hs), h1]
      · simpa only [tieredLoop, if_pos hs] using h2
      · simpa only [tieredLoop, if_pos hs] using h3
    · have hs' : noiseFloor ≤ score := not_lt.mp hs
      by_cases hb : budget < tokens + estOf env tb (d, score)
      · have hb' : budget < tokens + estimateTokens (formatForTier env tb d score).1 := by
          rw [hEst]
          exact hb
        refine ⟨[], (d, score) :: tl.filter (fun ds => noiseFloor ≤ ds.2), ?_, ?_, ?_, ?_, ?_⟩
        · rw [List.filter_cons, if_pos (decide_eq_true hs')]
          rfl
        · simp only [tieredLoop, if_neg hs, if_pos hb', estSum_nil]
          omega
        · simp only [tieredLoop, if_neg hs, if_pos hb', List.length_nil, Nat.add_zero]
        · intro h
          exact absurd rfl h
        · intro d0 hd0
          rw [List.head?_cons, Option.some_inj] at hd0
          subst hd0
          rw [estSum_nil]
          omega
      · have hb' : ¬budget < tokens + estimateTokens (formatForTier env tb d score).1 := by
          rw [hEst]
          exact hb
        obtain ⟨pre, suf, h1, h2, h3, h4, h5⟩ :=
          ih (tokens + estOf env tb (d, score))
            (bumpTier dist (formatForTier env tb d score).2)
            (parts ++ [(formatForTier env tb d score).1])
        have hloop : (tieredLoop env tb budget ((d, score) :: tl) tokens dist parts)
            = tieredLoop env tb budget tl (tokens + estOf env tb (d, score))
                (bumpTier dist (formatForTier env tb d score).2)
                (parts ++ [(formatForTier env tb d score).1]) := by
          simp only [tieredLoop, if_neg hs]
          rw [hEst, if_neg hb]
        refine ⟨(d, score) :: pre, suf, ?_, ?_, ?_, ?_, ?_⟩
        · rw [List.filter_cons, if_pos (decide_eq_true hs'), h1]
          rfl
        · rw [hloop, h2, estSum_cons]
          omega
        · rw [hloop, h3, distSum_bump, List.length_cons]
          omega
        · intro _
          rw [estSum_cons]
          by_cases hpre : pre = []
          · rw [hpre, estSum_nil]
            omega
          · have h4' := h4 hpre
            omega
        · intro d0 hd0
          have := h5 d0 hd0
          rw [estSum_cons]
          omega

/-- C6 (amended): for every stance oracle, tier boundaries and non-negative
token budget, `format_context_tiered` reports `tokens_used ≤ budget`; the
decisions at or above the noise floor are consumed as a greedy prefix: a
decision is included only when adding its estimated token count — the
formatted string's length in **characters** divided by 4 — keeps the running
total (header included) within the budget, and emission stops at the first
kept decision that would exceed it. -/
theorem tiered_formatting_within_budget (env : RetrievalEnv) (tb : TierBoundaries)
    (budget : Nat) (scored : List (DecisionNode × ℚ)) :
    (formatContextTiered env tb budget scored).tokens_used ≤ budget ∧
    ∃ pre suf,
      scored.filter (fun ds => noiseFloor ≤ ds.2) = pre ++ suf ∧
      distSum (formatContextTiered env tb budget scored).tier_distribution = pre.length ∧
      (pre ≠ [] →
        (formatContextTiered env tb budget scored).tokens_used
            = estimateTokens tieredHeader + estSum env tb pre ∧
        estimateTokens tieredHeader + estSum env tb pre ≤ budget) ∧
      (pre = [] → (formatContextTiered env tb budget scored).tokens_used = 0) ∧
      (∀ d0, suf.head? = some d0 →
        budget < estimateTokens tieredHeader + estSum env tb pre + estOf env tb d0) := by
  by_cases hempty : scored.isEmpty
  · have hnil : scored = [] := List.isEmpty_iff.mp hempty
    subst hnil
    refine ⟨by simp [formatContextTiered], [], [], by simp, ?_, ?_, ?_, ?_⟩
    · simp [formatContextTiered, distSum]
    · intro h
      exact absurd rfl h
    · intro _
      simp [formatContextTiered]
    · intro d0 hd0
      cases hd0
  · obtain ⟨pre, suf, h1, h2, h3, h4, h5⟩ :=
      tieredLoop_spec env tb budget scored (estimateTokens tieredHeader)
        ⟨0, 0, 0⟩ [tieredHeader]
    have hfc : formatContextTiered env tb budget scored
        = (if distSum (tieredLoop env tb budget scored (estimateTokens tieredHeader)
              ⟨0, 0, 0⟩ [tieredHeader]).dist = 0
           then ⟨"", 0, (tieredLoop env tb budget scored (estimateTokens tieredHeader)
              ⟨0, 0, 0⟩ [tieredHeader]).dist⟩
           else ⟨String.intercalate "\n" (tieredLoop env tb budget scored
                  (estimateTokens tieredHeader) ⟨0, 0, 0⟩ [tieredHeader]).parts,
                 (tieredLoop env tb budget scored (estimateTokens tieredHeader)
                   ⟨0, 0, 0⟩ [tieredHeader]).tokens_used,
                 (tieredLoop env tb budget scored (estimateTokens tieredHeader)
                   ⟨0, 0, 0⟩ [tieredHeader]).dist⟩) := by
      unfold formatContextTiered
      try rw [if_neg hempty]
    have hds0 : distSum (⟨0, 0, 0⟩ : TierDist) = 0 := rfl
    rw [hds0, Nat.zero_add] at h3
    by_cases hz : distSum (tieredLoop env tb budget scored (estimateTokens tieredHeader)
        ⟨0, 0, 0⟩ [tieredHeader]).dist = 0
    · have hpre : pre = [] := List.length_eq_zero.mp (by rw [← h3]; exact hz)
      rw [hfc, if_pos hz]
      exact ⟨Nat.zero_le budget, pre, suf, h1, h3, fun hne => absurd hpre hne,
        fun _ => rfl, h5⟩
    · have hpre : pre ≠ [] := by
        intro hp
        apply hz
        rw [h3, hp]
        rfl
      have hb := h4 hpre
      rw [hfc, if_neg hz]
      refine ⟨?_, pre, suf, h1, h3, fun _ => ⟨h2, hb⟩, fun hp => absurd hp hpre, h5⟩
      dsimp only
      rw [h2]
      exact hb

/-- C6 counterexample: with the default boundaries, budget 21 and one
decision at score 0.45, the code includes the decision (brief tier,
character estimate 8, total 13 + 8 = 21 ≤ 21) — but its one-liner holds a
non-ASCII `→`, so the claim's byte-based estimate is 9 and the byte-based
running total 13 + 9 = 22 exceeds the budget: the inclusion rule as claimed
(bytes / 4) does not describe the code, which uses characters / 4. -/
theorem tiered_estimate_counts_chars_not_bytes :
    (formatContextTiered envTier ⟨mkRat 3 4, mkRat 3 5⟩ 21
        [(dC6, mkRat 9 20)]).tier_distribution.brief = 1 ∧
    (formatContextTiered envTier ⟨mkRat 3 4, mkRat 3 5⟩ 21
        [(dC6, mkRat 9 20)]).tokens_used = 21 ∧
    21 < specEstimateTokensBytes tieredHeader +
        specEstimateTokensBytes (formatForTier envTier ⟨mkRat 3 4, mkRat 3 5⟩
          dC6 (mkRat 9 20)).1 :=
  ⟨by decide, by decide, by decide⟩

theorem tiered_formatting_within_budget_witness :
    (formatContextTiered envTier ⟨mkRat 3 4, mkRat 3 5⟩ 1500
        [(dC6, mkRat 9 20)]).tokens_used ≤ 1500 :=
  (tiered_formatting_within_budget envTier ⟨mkRat 3 4, mkRat 3 5⟩ 1500
    [(dC6, mkRat 9 20)]).1

theorem executeRoundCtx_length (env : Env) (round_num : Nat) (prompt : String)
    (ctx : Option String) (participants : List Participant) :
    (executeRoundCtx env round_num prompt ctx participants).length = participants.length := by
  simp [executeRoundCtx]

theorem executeRoundCtx_getElem (env : Env) (round_num : Nat) (prompt : String)
    (ctx : Option String) (participants : List Participant)
    (i : Nat) (hi : i < participants.length) :
    (executeRoundCtx env round_num prompt ctx participants)[i]? =
      some (mkRoundResponseCtx env round_num prompt ctx i (participants.get ⟨i, hi⟩)) := by
  unfold executeRoundCtx
  rw [List.getElem?_map, List.getElem?_enum, List.getElem?_eq_getElem hi]
  rfl

theorem graphDebateUpTo_length (env : Env) (graphCtx : String)
    (req : DeliberateRequest) (n : Nat) :
    (graphDebateUpTo env graphCtx req n).length = n * req.participants.length := by
  induction n with
  | zero => simp [graphDebateUpTo]
  | succ k ih => simp [graphDebateUpTo, ih, executeRoundCtx_length, Nat.succ_mul]

theorem graphDebateUpTo_getElem (env : Env) (graphCtx : String)
    (req : DeliberateRequest) (n r i : Nat)
    (h1 : 1 ≤ r) (h2 : r ≤ n) (hi : i < req.participants.length) :
    (graphDebateUpTo env graphCtx req n)[(r - 1) * req.participants.length + i]? =
      some (mkRoundResponseCtx env r req.question
        (graphAwareRoundContext graphCtx (graphDebateUpTo env graphCtx req (r - 1)) r)
        i (req.participants.get ⟨i, hi⟩)) := by
  induction n with
  | zero => omega
  | succ k ih =>
    rw [graphDebateUpTo]
    by_cases hr : r ≤ k
    · have hlt : (r - 1) * req.participants.length + i
          < (graphDebateUpTo env graphCtx req k).length := by
        rw [graphDebateUpTo_length]
        have hp : 1 ≤ req.participants.length := by omega
        have : (r - 1) * req.participants.length + req.participants.length
            ≤ k * req.participants.length := by
          have hrk : (r - 1) + 1 ≤ k := by omega
          calc (r - 1) * req.participants.length + req.participants.length
              = ((r - 1) + 1) * req.participants.length := by ring
            _ ≤ k * req.participants.length := Nat.mul_le_mul_right _ hrk
        omega
      rw [List.getElem?_append, if_pos hlt]
      exact ih hr
    · have hrk : r = k + 1 := by omega
      subst hrk
      simp only [Nat.add_sub_cancel]
      have hlen : (graphDebateUpTo env graphCtx req k).length
          = k * req.participants.length := graphDebateUpTo_length env graphCtx req k
      have hidx : k * req.participants.length + i
          = (graphDebateUpTo env graphCtx req k).length + i := by
        rw [hlen]
      rw [hidx, List.getElem?_append, if_neg (by omega)]
      have hsub : (graphDebateUpTo env graphCtx req k).length + i
          - (graphDebateUpTo env graphCtx req k).length = i := by
        omega
      rw [hsub]
      exact executeRoundCtx_getElem env (k + 1) req.question _ req.participants i hi

/-- C8 (spec-modelled): in every run of the graph-aware engine, each
participant of round `r` is invoked with context
`graphAwareRoundContext graphCtx (transcript of rounds < r) r`; in round 1 —
and only there — the non-empty decision-graph block is prepended, and in
every round `r ≥ 2` the context is exactly `roundContext` of the accumulated
prior-round responses (no graph block). -/
theorem graph_context_prepended_round_one_only (env : Env) (graphCtx : String)
    (req : DeliberateRequest) (hne : graphCtx ≠ "") :
    (graphAwareRoundContext graphCtx (graphDebateUpTo env graphCtx req 0) 1
      = some (graphCtx ++
          (roundContext (graphDebateUpTo env graphCtx req 0)).getD "")) ∧
    (∀ r, 2 ≤ r →
      graphAwareRoundContext graphCtx (graphDebateUpTo env graphCtx req (r - 1)) r
        = roundContext (graphDebateUpTo env graphCtx req (r - 1))) ∧
    (∀ n r i, 1 ≤ r → r ≤ n → ∀ hi : i < req.participants.length,
      (graphDebateUpTo env graphCtx req n)[(r - 1) * req.participants.length + i]?
        = some (mkRoundResponseCtx env r req.question
            (graphAwareRoundContext graphCtx (graphDebateUpTo env graphCtx req (r - 1)) r)
            i (req.participants.get ⟨i, hi⟩))) := by
  have hemp : graphCtx.isEmpty = false := by
    rw [Bool.eq_false_iff]
    intro he
    exact hne ((String.isEmpty_iff graphCtx).mp he)
  refine ⟨?_, ?_, ?_⟩
  · unfold graphAwareRoundContext
    rw [if_pos rfl, hemp]
    simp
  · intro r hr
    unfold graphAwareRoundContext
    rw [if_neg (by omega)]
  · intro n r i hr1 hr2 hi
    exact graphDebateUpTo_getElem env graphCtx req n r i hr1 hr2 hi

theorem graph_context_prepended_round_one_only_witness :
    (graphAwareRoundContext "GC" (graphDebateUpTo envW "GC" reqW 0) 1
      = some ("GC" ++ (roundContext (graphDebateUpTo envW "GC" reqW 0)).getD "")) ∧
    (graphAwareRoundContext "GC" (graphDebateUpTo envW "GC" reqW 1) 2
      = roundContext (graphDebateUpTo envW "GC" reqW 1)) := by
  obtain ⟨h1, h2, -⟩ := graph_context_prepended_round_one_only envW "GC" reqW (by decide)
  exact ⟨h1, h2 2 (le_refl 2)⟩
